import Mathlib

/-!
Shallow embedding of the Consolidation Engine of
`src/HCS/scripts/finale/consolidate_medical_records.py`.

Strings are modelled as Lean `String` (a list of unicode characters),
timestamps as pairs `(day, timeOfDay) : Nat × Nat` (the calendar day and the
time of day; `pandas` datetimes compare lexicographically on those two
components), and patient / visit identifiers as `Nat`.  File-system access is
abstracted away: a file that may be absent is an `Option`, a file that may
fail to parse is an `Option` as well.
-/

namespace VetConsolidation

/-! ## Entity tags

`load_entity_data` tags every row with `entity_name.upper()`; the entity set
is the default list of `load_client_config`. -/

/-- The six clinical entities of the default configuration. -/
inductive EntityTag where
  | Apuntes
  | DatosdeControl
  | Diagnosticos
  | Prescripciones
  | Procedimientos
  | Vacunas
deriving DecidableEq, Fintype

/-- Header line printed for an entity block in a consolidated note
(`entity_order` strings of `consolidate_medical_records`; the tag
`DATOSDECONTROL` is displayed as `DATOS DE CONTROL`). -/
def header : EntityTag → String
  | .Apuntes => "APUNTES"
  | .Procedimientos => "PROCEDIMIENTOS"
  | .Diagnosticos => "DIAGNOSTICOS"
  | .DatosdeControl => "DATOS DE CONTROL"
  | .Prescripciones => "PRESCRIPCIONES"
  | .Vacunas => "VACUNAS"

/-- The fixed rendering order of entity blocks
(`entity_order = ['APUNTES', 'PROCEDIMIENTOS', 'DIAGNOSTICOS',
'DATOS DE CONTROL', 'PRESCRIPCIONES', 'VACUNAS']`). -/
def renderOrder : List EntityTag :=
  [.Apuntes, .Procedimientos, .Diagnosticos, .DatosdeControl,
   .Prescripciones, .Vacunas]

/-- The order in which entity tables are loaded (`load_client_config`
default list `['Apuntes', 'DatosdeControl', 'Diagnosticos',
'Prescripciones', 'Procedimientos', 'Vacunas']`). -/
def defaultEntities : List EntityTag :=
  [.Apuntes, .DatosdeControl, .Diagnosticos, .Prescripciones,
   .Procedimientos, .Vacunas]

/-! ## Text sanitizer (`clean_text_for_excel`)

Each regex substitution of the Python function becomes one list
transformation on `String.data`. -/

/-- Characters matched by `[\x00-\x1f\x7f-\x9f]` (replaced by a space). -/
def isCtrl (c : Char) : Bool :=
  decide (c.toNat ≤ 0x1f ∨ (0x7f ≤ c.toNat ∧ c.toNat ≤ 0x9f))

/-- Characters matched by the six emoji / pictograph ranges (removed). -/
def isEmoji (c : Char) : Bool :=
  decide ((0x1F600 ≤ c.toNat ∧ c.toNat ≤ 0x1F64F) ∨
          (0x1F300 ≤ c.toNat ∧ c.toNat ≤ 0x1F5FF) ∨
          (0x1F680 ≤ c.toNat ∧ c.toNat ≤ 0x1F6FF) ∨
          (0x1F1E0 ≤ c.toNat ∧ c.toNat ≤ 0x1F1FF) ∨
          (0x2600 ≤ c.toNat ∧ c.toNat ≤ 0x26FF) ∨
          (0x2700 ≤ c.toNat ∧ c.toNat ≤ 0x27BF))

/-- Characters matched by `[<>&"\']` (removed). -/
def isXmlBad (c : Char) : Bool :=
  decide (c = '<' ∨ c = '>' ∨ c = '&' ∨ c = '"' ∨ c = '\'')

/-- Characters matched by the zero-width / line-separator Unicode space
ranges U+200B-U+200F, U+2028-U+202F, U+205F-U+206F (removed). -/
def isUniSpace (c : Char) : Bool :=
  decide ((0x200B ≤ c.toNat ∧ c.toNat ≤ 0x200F) ∨
          (0x2028 ≤ c.toNat ∧ c.toNat ≤ 0x202F) ∨
          (0x205F ≤ c.toNat ∧ c.toNat ≤ 0x206F))

/-- Characters kept by `[^\x20-\x7E ...]` whitelist (U+0020-U+007E, U+00C0-U+00FF, U+0100-U+017F) deletion:
basic printable ASCII plus the Latin-1 supplement letters and Latin
Extended-A. -/
def isAllowed (c : Char) : Bool :=
  decide ((0x20 ≤ c.toNat ∧ c.toNat ≤ 0x7E) ∨
          (0xC0 ≤ c.toNat ∧ c.toNat ≤ 0xFF) ∨
          (0x100 ≤ c.toNat ∧ c.toNat ≤ 0x17F))

/-- Characters stripped from the start by `^[=+\-@]` (formula-injection
guard). -/
def isFormula (c : Char) : Bool :=
  decide (c = '=' ∨ c = '+' ∨ c = '-' ∨ c = '@')

/-- Python whitespace: the characters matched by `\s` of the `re` module and
stripped by `str.strip()` (ASCII whitespace, the file/group/record/unit
separators, NEL, NBSP, and the Unicode space characters). -/
def isPySpace (c : Char) : Bool :=
  decide ((9 ≤ c.toNat ∧ c.toNat ≤ 13) ∨
          (0x1C ≤ c.toNat ∧ c.toNat ≤ 0x1F) ∨
          c.toNat = 0x20 ∨ c.toNat = 0x85 ∨ c.toNat = 0xA0 ∨
          c.toNat = 0x1680 ∨
          (0x2000 ≤ c.toNat ∧ c.toNat ≤ 0x200A) ∨
          c.toNat = 0x2028 ∨ c.toNat = 0x2029 ∨ c.toNat = 0x202F ∨
          c.toNat = 0x205F ∨ c.toNat = 0x3000)

/-- The substitution `re.sub(r'[\x00-\x1f\x7f-\x9f]', ' ', text)`. -/
def ctrlToSpace (l : List Char) : List Char :=
  l.map fun c => if isCtrl c then ' ' else c

/-- The six emoji-range deletions. -/
def removeEmoji (l : List Char) : List Char := l.filter fun c => !isEmoji c

/-- The substitution removing the XML-problematic characters. -/
def removeXml (l : List Char) : List Char := l.filter fun c => !isXmlBad c

/-- The Unicode-space deletion (ranges U+200B-U+200F, U+2028-U+202F,
U+205F-U+206F). -/
def removeUniSpace (l : List Char) : List Char :=
  l.filter fun c => !isUniSpace c

/-- The whitelist deletion: keep only allowed characters. -/
def keepAllowed (l : List Char) : List Char := l.filter fun c => isAllowed c

/-- The substitution `re.sub(r'^[=+\-@]', '', text)`: at most one leading formula character is
removed (the pattern is anchored at the start of the string). -/
def dropFormulaHead : List Char → List Char
  | [] => []
  | c :: rest => if isFormula c then rest else c :: rest

/-- The substitution `re.sub(r'\s+', ' ', text)`: every maximal run of whitespace characters
becomes a single space.  A whitespace character followed by another
whitespace character is dropped; the last character of a run becomes `' '`. -/
def collapseWs : List Char → List Char
  | [] => []
  | [a] => if isPySpace a then [' '] else [a]
  | a :: b :: rest =>
    if isPySpace a && isPySpace b then collapseWs (b :: rest)
    else (if isPySpace a then ' ' else a) :: collapseWs (b :: rest)

/-- Python `str.strip()`: remove whitespace from both ends. -/
def stripEnds (l : List Char) : List Char :=
  (l.dropWhile isPySpace).rdropWhile isPySpace

/-- The character-level phase of the sanitizer: the control-character
replacement followed by the four character-class deletions, in source
order. -/
def charPhase (l : List Char) : List Char :=
  keepAllowed (removeUniSpace (removeXml (removeEmoji (ctrlToSpace l))))

/-- Excel's per-cell character limit (`text[:32767]`). -/
def excelLimit : Nat := 32767

/-- The full sanitizer pipeline on a character list: character phase,
formula-prefix strip, whitespace collapse, strip, truncation — the order of
the statements of `clean_text_for_excel`. -/
def cleanList (l : List Char) : List Char :=
  (stripEnds (collapseWs (dropFormulaHead (charPhase l)))).take excelLimit

/-- The function `clean_text_for_excel` restricted to strings (the `pd.isna` branch is
unreachable for string input; `text == ''` returns the input unchanged). -/
def clean_text_for_excel (s : String) : String :=
  if s = "" then s else String.mk (cleanList s.data)

/-- Python `str.strip()` on a `String` (used on each note before it is
appended to the consolidated block). -/
def stripStr (s : String) : String := String.mk (stripEnds s.data)




end VetConsolidation

namespace VetConsolidation

/-! ## Records and the consolidator -/

/-- A row of a transformed entity table: `ID ATENCION`, `ID MASCOTA`,
`FECHA` (as `(day, timeOfDay)`), `NOTAS`. -/
structure Row where
  visitId : Nat
  pid : Nat
  ts : Nat × Nat
  note : String
deriving DecidableEq

/-- A row tagged with its entity (`df['ENTIDAD'] = entity_name.upper()`). -/
structure Rec where
  visitId : Nat
  pid : Nat
  ts : Nat × Nat
  note : String
  tag : EntityTag
deriving DecidableEq

/-- A consolidated record before sequencing: `ID MASCOTA`, the original
full timestamp of the first group member, and the joined `NOTAS`. -/
structure CRec where
  pid : Nat
  ts : Nat × Nat
  noteText : String
deriving DecidableEq

/-- A consolidated record after sequencing, with its `ID ATENCION`. -/
structure SeqRec where
  outputId : Nat
  pid : Nat
  ts : Nat × Nat
  noteText : String
deriving DecidableEq

/-- The grouping key `(ID MASCOTA, FECHA_SOLO)`: patient id and calendar day
(the day component of the timestamp; time of day is discarded only here). -/
def recKey (r : Rec) : Nat × Nat := (r.pid, r.ts.1)

/-- The block rendered for one entity of a group: if the entity has no rows
in the group, nothing; otherwise the header line, then each member's
sanitized non-empty note (in member order), then one empty separator
line. -/
def entityBlock (members : List Rec) (e : EntityTag) : List String :=
  let entityData := members.filter fun r => r.tag = e
  if entityData.isEmpty then []
  else
    header e ::
      (entityData.filterMap fun r =>
        let nota := clean_text_for_excel r.note
        if nota ≠ "" ∧ stripStr nota ≠ "" then some (stripStr nota)
        else none) ++ [""]

/-- The consolidated note lines of a group: the entity blocks concatenated
in the fixed order `renderOrder`. -/
def renderNotes (members : List Rec) : List String :=
  (renderOrder.map (entityBlock members)).flatten

/-- Consolidation of one group: the representative timestamp is the full
timestamp of the first member in loaded order (`iloc[0]`); the record is
kept only when the rendered line list is non-empty
(`if notas_consolidadas:`).  Groups coming from `groupby` are never empty,
so the `none` of the empty-member case is unreachable in the pipeline. -/
def consolidateGroup (pid : Nat) (members : List Rec) : Option CRec :=
  match members.head? with
  | none => none
  | some first =>
    let notas := renderNotes members
    if notas.isEmpty then none
    else some ⟨pid, first.ts, String.intercalate "\n" notas⟩

/-- Lexicographic order on grouping keys; `pandas.groupby` (with the default
`sort=True`) iterates the groups in ascending key order. -/
def pairLe (a b : Nat × Nat) : Prop :=
  a.1 < b.1 ∨ (a.1 = b.1 ∧ a.2 ≤ b.2)

instance : DecidableRel pairLe := fun a b => by unfold pairLe; infer_instance

/-- The distinct grouping keys of the combined table, in ascending order. -/
def groupKeysSorted (l : List Rec) : List (Nat × Nat) :=
  List.insertionSort pairLe (l.map recKey).dedup

/-- The members of the group of key `k`, in their order in the combined
table (`groupby` preserves the original order within a group). -/
def groupMembers (l : List Rec) (k : Nat × Nat) : List Rec :=
  l.filter fun r => recKey r = k

/-- The record consolidator: one optional `CRec` per `(patient, day)`
group. -/
def consolidate (l : List Rec) : List CRec :=
  (groupKeysSorted l).filterMap fun k => consolidateGroup k.1 (groupMembers l k)

/-! ## Sequencer and batcher -/

/-- The sort key of `final_df.sort_values(['FECHA', 'ID MASCOTA'])`:
timestamp (day, then time of day), then patient id. -/
def keyTriple (c : CRec) : Nat × Nat × Nat := (c.ts.1, c.ts.2, c.pid)

/-- Lexicographic comparison of sort keys. -/
def tripleLe (a b : Nat × Nat × Nat) : Prop :=
  a.1 < b.1 ∨ (a.1 = b.1 ∧ (a.2.1 < b.2.1 ∨ (a.2.1 = b.2.1 ∧ a.2.2 ≤ b.2.2)))

instance : DecidableRel tripleLe := fun a b => by unfold tripleLe; infer_instance

/-- Ascending order on consolidated records by `(FECHA, ID MASCOTA)`. -/
def crecLe (a b : CRec) : Prop := tripleLe (keyTriple a) (keyTriple b)

instance : DecidableRel crecLe := fun a b => by unfold crecLe; infer_instance

/-- The assignment of `ID ATENCION` as `range(1, len(final_df) + 1)`: consecutive
identifiers starting at `i`, assigned in list order. -/
def assignIds : Nat → List CRec → List SeqRec
  | _, [] => []
  | i, c :: rest => ⟨i, c.pid, c.ts, c.noteText⟩ :: assignIds (i + 1) rest

/-- The sequencer: sort ascending by `(FECHA, ID MASCOTA)` and assign
`ID ATENCION = 1, 2, 3, ...` in sorted order. -/
def sequenceRecords (l : List CRec) : List SeqRec :=
  assignIds 1 (List.insertionSort crecLe l)

/-- Forget the assigned identifier. -/
def seqToCRec (s : SeqRec) : CRec := ⟨s.pid, s.ts, s.noteText⟩

/-- The fixed `batch_size = 5000`. -/
def batchSizeN : Nat := 5000

/-- The batch count `(len(final_df) - 1) // batch_size + 1` with Python
floor division (`Int.fdiv`); for an empty final set this is `0`. -/
def totalBatches (n : Nat) : Nat :=
  (((n : Int) - 1).fdiv batchSizeN + 1).toNat

/-- The batcher: batch `i` is `final_df.iloc[i*batch_size :
min((i+1)*batch_size, len(final_df))]`. -/
def batches (l : List SeqRec) : List (List SeqRec) :=
  (List.range (totalBatches l.length)).map fun i =>
    (l.drop (i * batchSizeN)).take batchSizeN

/-! ## Allow-list aggregator and entity loader -/

/-- The aggregator `load_pets_filter`, with the file system abstracted: the outer `Option`
is the existence of the filter folder together with its list of Excel
files; each file either fails to parse (`none`) or yields the identifier
column (`some ids`).  A missing folder or an empty file list gives `none`
("no filter"); otherwise the per-file identifier sets are unioned, a
failing file contributing nothing. -/
def load_pets_filter (dir : Option (List (Option (List Nat)))) :
    Option (Finset Nat) :=
  match dir with
  | none => none
  | some files =>
    if files.isEmpty then none
    else some (files.foldl
      (fun acc f =>
        match f with
        | none => acc
        | some ids => acc ∪ ids.toFinset) ∅)

/-- An entity's transformed table as found on disk: whether the required
columns are present, and its rows. -/
structure EntityTable where
  hasCols : Bool
  rows : List Row
deriving DecidableEq

/-- Tag a row with its entity. -/
def tagRow (e : EntityTag) (r : Row) : Rec :=
  ⟨r.visitId, r.pid, r.ts, r.note, e⟩

/-- The loader `load_entity_data`: `none` when the file is absent, when a required
column is missing, or when the table is empty after the allow-list filter;
otherwise the filtered rows tagged with the entity. -/
def load_entity_data (tbl : Option EntityTable) (flt : Option (Finset Nat))
    (e : EntityTag) : Option (List Rec) :=
  match tbl with
  | none => none
  | some t =>
    if ¬ t.hasCols then none
    else
      let rows := match flt with
        | none => t.rows
        | some s => t.rows.filter fun r => r.pid ∈ s
      if rows.isEmpty then none else some (rows.map (tagRow e))

/-- The consolidation run on loaded tables: load every entity in the
default order, fail (`none`) when no entity loads, otherwise concatenate,
consolidate, sequence and batch.  `none` models the `return False` /
non-zero exit of the script, under which no batch is written. -/
def consolidate_run (tables : EntityTag → Option EntityTable)
    (flt : Option (Finset Nat)) : Option (List (List SeqRec)) :=
  let dfs := defaultEntities.filterMap fun e => load_entity_data (tables e) flt e
  if dfs.isEmpty then none
  else some (batches (sequenceRecords (consolidate dfs.flatten)))

/-- ASCII control characters (U+0000-U+001F and U+007F). -/
def isAsciiCtrl (c : Char) : Bool :=
  decide (c.toNat ≤ 0x1f ∨ c.toNat = 0x7f)

/-- A character that may appear in sanitizer output: in the whitelist and
not one of the removed XML-problematic characters. -/
def SafeChar (c : Char) : Prop := isAllowed c = true ∧ isXmlBad c = false

/-- A character list in collapsed-whitespace form: every whitespace
character in it is a plain space and no two adjacent characters are both
whitespace. -/
def Collapsed (l : List Char) : Prop :=
  (∀ c ∈ l, isPySpace c = true → c = ' ') ∧
  List.Chain' (fun a b => ¬(isPySpace a = true ∧ isPySpace b = true)) l

/-- Does the sanitized string still begin with a formula character? -/
def startsWithFormula (s : String) : Bool :=
  match s.data.head? with
  | none => false
  | some c => isFormula c

/-- Does the sanitized string end with a whitespace character? -/
def endsWithSpace (s : String) : Bool :=
  match s.data.getLast? with
  | none => false
  | some c => isPySpace c

instance : IsTotal CRec crecLe := by
  constructor
  intro a b
  unfold crecLe tripleLe
  omega

instance : IsTrans CRec crecLe := by
  constructor
  intro a b c
  unfold crecLe tripleLe
  omega

/-- The entity tables of the end-to-end scenario: one NOTE row for patient
100 at 2024-01-05 09:00 with text Checkup, loaded first, and one VACCINE
row for patient 100 at 2024-01-05 14:00 with text Rabies.  Days are encoded
`yyyymmdd`, times of day in minutes. -/
def c9Tables : EntityTag → Option EntityTable
  | .Apuntes => some ⟨true, [⟨1, 100, (20240105, 540), "Checkup"⟩]⟩
  | .Vacunas => some ⟨true, [⟨2, 100, (20240105, 840), "Rabies"⟩]⟩
  | _ => none

end VetConsolidation

namespace VetConsolidation

/-! ## Helper lemmas -/

/-- Every entity tag occurs in the fixed rendering order. -/
lemma mem_renderOrder (e : EntityTag) : e ∈ renderOrder := by
  cases e <;> decide

/-- Every entity tag occurs in the default loading order. -/
lemma mem_defaultEntities (e : EntityTag) : e ∈ defaultEntities := by
  cases e <;> decide

/-- The block of the entity of any group member is non-empty (it starts
with the header line). -/
lemma entityBlock_ne_nil_of_mem {members : List Rec} {r : Rec}
    (hr : r ∈ members) : entityBlock members r.tag ≠ [] := by
  unfold entityBlock
  have hmem : r ∈ members.filter fun x => x.tag = r.tag := by
    simp [List.mem_filter, hr]
  have : ¬ (members.filter fun x => x.tag = r.tag).isEmpty := by
    intro h
    rw [List.isEmpty_iff] at h
    simp [h] at hmem
  simp only [this, if_false]
  simp

/-- A non-empty group renders at least one line. -/
lemma renderNotes_ne_nil {members : List Rec} (hne : members ≠ []) :
    renderNotes members ≠ [] := by
  obtain ⟨r, t, rfl⟩ : ∃ x t, members = x :: t := by
    cases members with
    | nil => exact absurd rfl hne
    | cons x t => exact ⟨x, t, rfl⟩
  intro h
  unfold renderNotes at h
  rw [List.flatten_eq_nil_iff] at h
  have hb : entityBlock (r :: t) r.tag = [] := by
    exact h _ (List.mem_map.mpr ⟨r.tag, mem_renderOrder r.tag, rfl⟩)
  exact entityBlock_ne_nil_of_mem (List.mem_cons_self r t) hb

/-! ## Claim C1 -/

/-- C1 as stated is false: a group whose only member's note is
whitespace-only still yields a `ConsolidatedRecord`, and its entity header
line is emitted (the body is the header plus the blank separator). -/
theorem c1_counterexample :
    consolidateGroup 1 [⟨1, 1, (5, 5), " ", .Apuntes⟩] =
      some ⟨1, (5, 5), "APUNTES\n"⟩ := by decide

/-- C1 (amended): in every consolidation group — mixed or not — an entity
present in the group always emits its header line (the header is appended
before the entity's notes are inspected); an entity whose own members'
note texts all sanitize to empty contributes a block of exactly its header
line and the blank separator; a non-empty group always produces a
`ConsolidatedRecord` (it is never dropped); and a group in which every
member's sanitized note text is empty produces a record whose `note_text`
consists only of header lines and separators. -/
theorem c1_amended (pid : Nat) (members : List Rec) :
    (∀ e : EntityTag, (members.filter fun r => r.tag = e) ≠ [] →
      ∃ rest, entityBlock members e = header e :: rest)
    ∧ (∀ e : EntityTag, (members.filter fun r => r.tag = e) ≠ [] →
      (∀ r ∈ members.filter fun r => r.tag = e,
        ¬(clean_text_for_excel r.note ≠ "" ∧
          stripStr (clean_text_for_excel r.note) ≠ "")) →
      entityBlock members e = [header e, ""])
    ∧ (members ≠ [] → ∃ c, consolidateGroup pid members = some c)
    ∧ (members ≠ [] →
      (∀ r ∈ members,
        ¬(clean_text_for_excel r.note ≠ "" ∧
          stripStr (clean_text_for_excel r.note) ≠ "")) →
      ∃ c, consolidateGroup pid members = some c ∧
        c.noteText = String.intercalate "\n"
          ((renderOrder.map fun e =>
            if (members.filter fun r => r.tag = e).isEmpty then []
            else [header e, ""]).flatten)) := by
  have hblockEmpty : ∀ e : EntityTag,
      (∀ r ∈ members.filter fun r => r.tag = e,
        ¬(clean_text_for_excel r.note ≠ "" ∧
          stripStr (clean_text_for_excel r.note) ≠ "")) →
      entityBlock members e =
        if (members.filter fun r => r.tag = e).isEmpty then []
        else [header e, ""] := by
    intro e hemp
    unfold entityBlock
    by_cases h : (members.filter fun r => r.tag = e).isEmpty
    · simp [h]
    · simp only [h, if_false]
      have : (members.filter fun r => r.tag = e).filterMap (fun r =>
          let nota := clean_text_for_excel r.note
          if nota ≠ "" ∧ stripStr nota ≠ "" then some (stripStr nota)
          else none) = [] := by
        rw [List.filterMap_eq_nil_iff]
        intro r hr
        simp only [if_neg (hemp r hr)]
      rw [this]
      simp
  have hdrop : members ≠ [] → ∃ c, consolidateGroup pid members = some c := by
    intro hne
    obtain ⟨first, rest, rfl⟩ : ∃ x t, members = x :: t := by
      cases members with
      | nil => exact absurd rfl hne
      | cons x t => exact ⟨x, t, rfl⟩
    refine ⟨⟨pid, first.ts,
      String.intercalate "\n" (renderNotes (first :: rest))⟩, ?_⟩
    unfold consolidateGroup
    have hnn : ¬ (renderNotes (first :: rest)).isEmpty := by
      rw [List.isEmpty_iff]
      exact renderNotes_ne_nil hne
    simp [hnn]
  refine ⟨?_, ?_, hdrop, ?_⟩
  · intro e hne
    unfold entityBlock
    rw [if_neg (by rw [List.isEmpty_iff]; exact hne)]
    exact ⟨_, rfl⟩
  · intro e hne hemp
    rw [hblockEmpty e hemp, if_neg (by rw [List.isEmpty_iff]; exact hne)]
  · intro hne hempty
    have hrender : renderNotes members =
        ((renderOrder.map fun e =>
          if (members.filter fun r => r.tag = e).isEmpty then []
          else [header e, ""]).flatten) := by
      unfold renderNotes
      congr 1
      refine List.map_congr_left fun e _ => ?_
      exact hblockEmpty e fun r hr => hempty r (List.mem_of_mem_filter hr)
    obtain ⟨c, hc⟩ := hdrop hne
    refine ⟨c, hc, ?_⟩
    obtain ⟨first, rest, rfl⟩ : ∃ x t, members = x :: t := by
      cases members with
      | nil => exact absurd rfl hne
      | cons x t => exact ⟨x, t, rfl⟩
    unfold consolidateGroup at hc
    simp only [List.head?_cons] at hc
    rw [if_neg (by rw [List.isEmpty_iff]; exact renderNotes_ne_nil hne)] at hc
    simp only [Option.some_inj] at hc
    rw [← hc, ← hrender]

/-- Witness for C1 (amended) at a concrete mixed group: the VACUNAS
entity, whose only note is whitespace, contributes exactly its header and
the blank separator even though the APUNTES entity of the same group has
real text; the APUNTES block starts with its header; the mixed group is
not dropped; and a one-member all-whitespace group yields a record whose
note text is its header block alone. -/
theorem c1_witness :
    entityBlock
      [⟨1, 7, (3, 4), " ", .Vacunas⟩, ⟨2, 7, (3, 4), "ok", .Apuntes⟩]
      .Vacunas = [header .Vacunas, ""]
    ∧ (∃ rest, entityBlock
        [⟨1, 7, (3, 4), " ", .Vacunas⟩, ⟨2, 7, (3, 4), "ok", .Apuntes⟩]
        .Apuntes = header .Apuntes :: rest)
    ∧ (∃ c, consolidateGroup 7
        [⟨1, 7, (3, 4), " ", .Vacunas⟩, ⟨2, 7, (3, 4), "ok", .Apuntes⟩] = some c)
    ∧ (∃ c, consolidateGroup 9 [⟨1, 9, (3, 4), " ", .Apuntes⟩] = some c ∧
        c.noteText = String.intercalate "\n"
          ((renderOrder.map fun e =>
            if (([⟨1, 9, (3, 4), " ", .Apuntes⟩] : List Rec).filter
                fun r => r.tag = e).isEmpty then []
            else [header e, ""]).flatten)) := by
  obtain ⟨h1, h2, h3, _⟩ := c1_amended 7
    [⟨1, 7, (3, 4), " ", .Vacunas⟩, ⟨2, 7, (3, 4), "ok", .Apuntes⟩]
  exact ⟨h2 .Vacunas (by decide) (by decide), h1 .Apuntes (by decide),
    h3 (by decide),
    (c1_amended 9 [⟨1, 9, (3, 4), " ", .Apuntes⟩]).2.2.2
      (by decide) (by decide)⟩

/-! ## Claim C2 -/

/-- C2: the rendered `note_text` presents the per-entity blocks in the
fixed global order Apuntes, Procedimientos, Diagnosticos, DatosdeControl,
Prescripciones, Vacunas; the rendering depends only on the per-entity
member subsequences (so any interleaving of entities in the input union
renders identically, members of one entity keeping their relative loaded
order), and an entity absent from the group contributes nothing. -/
theorem c2_entity_order (members members' : List Rec)
    (h : ∀ e : EntityTag,
      (members.filter fun r => r.tag = e) =
        (members'.filter fun r => r.tag = e)) :
    renderNotes members = renderNotes members'
    ∧ renderNotes members =
        entityBlock members .Apuntes ++ entityBlock members .Procedimientos ++
        entityBlock members .Diagnosticos ++ entityBlock members .DatosdeControl ++
        entityBlock members .Prescripciones ++ entityBlock members .Vacunas
    ∧ ∀ e : EntityTag, (members.filter fun r => r.tag = e).isEmpty →
        entityBlock members e = [] := by
  refine ⟨?_, ?_, ?_⟩
  · unfold renderNotes
    congr 1
    refine List.map_congr_left fun e _ => ?_
    unfold entityBlock
    rw [h e]
  · simp [renderNotes, renderOrder, List.append_assoc]
  · intro e he
    unfold entityBlock
    simp [he]

/-- Witness for C2: a NOTE/VACCINE pair and its reversed interleaving
render the same text. -/
theorem c2_witness :
    renderNotes [⟨1, 100, (9, 1), "a", .Apuntes⟩, ⟨2, 100, (9, 2), "b", .Vacunas⟩] =
      renderNotes [⟨2, 100, (9, 2), "b", .Vacunas⟩, ⟨1, 100, (9, 1), "a", .Apuntes⟩] :=
  (c2_entity_order _ _ (by decide)).1

/-! ## Claim C5 -/

/-- C5: for every non-empty consolidation group, the output timestamp is
the full original timestamp of the first member in loaded order. -/
theorem c5_first_seen_timestamp (pid : Nat) (first : Rec) (rest : List Rec) :
    ∃ c, consolidateGroup pid (first :: rest) = some c ∧ c.ts = first.ts := by
  unfold consolidateGroup
  have hnn : ¬ (renderNotes (first :: rest)).isEmpty := by
    rw [List.isEmpty_iff]
    exact renderNotes_ne_nil (List.cons_ne_nil first rest)
  refine ⟨⟨pid, first.ts, String.intercalate "\n" (renderNotes (first :: rest))⟩, ?_, rfl⟩
  simp [hnn]

/-! ## Claim C9 -/


/-- C9: the end-to-end scenario produces exactly one consolidated record
with `output_id = 1`, `patient_id = 100`, the 09:00 timestamp of the
first-loaded NOTE record, and the note text consisting of the NOTE header,
Checkup, a blank separator, the VACCINE header, Rabies, and a trailing
blank separator (one batch in total). -/
theorem c9_end_to_end :
    consolidate_run c9Tables none =
      some [[⟨1, 100, (20240105, 540), "APUNTES\nCheckup\n\nVACUNAS\nRabies\n"⟩]] := by
  decide

end VetConsolidation

namespace VetConsolidation

/-! ## Claim C7 -/

/-- C7 as stated is false: when every file of a non-empty filter directory
fails to parse, the aggregator returns the empty restriction set, not the
"no filter" value. -/
theorem c7_counterexample :
    load_pets_filter (some [none]) ≠ none ∧
      load_pets_filter (some [none]) = some ∅ := by decide

/-- Folding the union step over files that all failed leaves the
accumulator unchanged. -/
lemma foldl_union_all_none (files : List (Option (List Nat)))
    (hfail : ∀ f ∈ files, f = none) (acc : Finset Nat) :
    files.foldl
      (fun acc f =>
        match f with
        | none => acc
        | some ids => acc ∪ ids.toFinset) acc = acc := by
  induction files generalizing acc with
  | nil => rfl
  | cons f t ih =>
    have hf : f = none := hfail f (List.mem_cons_self f t)
    subst hf
    exact ih (fun g hg => hfail g (List.mem_cons_of_mem _ hg)) acc

/-- C7 (amended): a per-file read failure only excludes that file's
contents from the union and aggregation continues with the remaining
files; but if zero allow-list files succeed in a non-empty filter
directory, the aggregator returns the empty restriction set (filtering out
every patient) rather than "no filter". -/
theorem c7_amended (fs1 fs2 files : List (Option (List Nat)))
    (hne : files ≠ []) (hfail : ∀ f ∈ files, f = none) :
    load_pets_filter (some files) = some ∅
    ∧ load_pets_filter (some (fs1 ++ none :: fs2)) =
        (if fs1 ++ fs2 = [] then some ∅
         else load_pets_filter (some (fs1 ++ fs2))) := by
  constructor
  · unfold load_pets_filter
    have h1 : ¬ files.isEmpty := by
      rw [List.isEmpty_iff]
      exact hne
    simp only [h1, if_false]
    rw [foldl_union_all_none files hfail]
    simp
  · have hfold : ∀ acc : Finset Nat,
        (fs1 ++ none :: fs2).foldl
          (fun acc f =>
            match f with
            | none => acc
            | some ids => acc ∪ ids.toFinset) acc =
        (fs1 ++ fs2).foldl
          (fun acc f =>
            match f with
            | none => acc
            | some ids => acc ∪ ids.toFinset) acc := by
      intro acc
      rw [List.foldl_append, List.foldl_append, List.foldl_cons]
    by_cases hemp : fs1 ++ fs2 = []
    · obtain ⟨h1, h2⟩ := List.append_eq_nil.mp hemp
      subst h1; subst h2
      simp only [hemp, if_true]
      unfold load_pets_filter
      simp
    · simp only [hemp, if_false]
      unfold load_pets_filter
      have hne1 : ¬ (fs1 ++ none :: fs2).isEmpty := by
        rw [List.isEmpty_iff]
        intro h
        exact absurd (List.append_eq_nil.mp h).2 (by simp)
      have hne2 : ¬ (fs1 ++ fs2).isEmpty := by
        rw [List.isEmpty_iff]
        exact hemp
      simp only [hne1, hne2, if_false]
      rw [hfold]

/-- Witness for C7 (amended): a two-file directory in which both files
fail aggregates to the empty set, and a failing file between two readable
ones drops out of the union. -/
theorem c7_witness :
    load_pets_filter (some [none, none]) = some ∅ ∧
      load_pets_filter (some [some [1], none, some [2]]) =
        (if ([some [1], some [2]] : List (Option (List Nat))) = [] then some ∅
         else load_pets_filter (some [some [1], some [2]])) :=
  ⟨(c7_amended [] [] [none, none] (by decide) (by decide)).1,
   (c7_amended [some [1]] [some [2]] [none] (by decide) (by decide)).2⟩

/-! ## Claim C8 -/

/-- C8: a missing, malformed, or empty-after-filter entity table makes the
loader return "no data" (`none`), which is non-fatal; and the whole run
fails (producing no batches) exactly when every entity's load returns "no
data". -/
theorem c8_error_handling (tables : EntityTag → Option EntityTable)
    (flt : Option (Finset Nat)) (e : EntityTag) :
    load_entity_data none flt e = none
    ∧ (∀ t : EntityTable, t.hasCols = false →
        load_entity_data (some t) flt e = none)
    ∧ (∀ t : EntityTable, ∀ s : Finset Nat, t.hasCols = true →
        (t.rows.filter fun r => r.pid ∈ s) = [] →
        load_entity_data (some t) (some s) e = none)
    ∧ (consolidate_run tables flt = none ↔
        ∀ e2 : EntityTag, load_entity_data (tables e2) flt e2 = none) := by
  refine ⟨rfl, ?_, ?_, ?_⟩
  · intro t h
    unfold load_entity_data
    simp [h]
  · intro t s hc hf
    unfold load_entity_data
    simp [hc, hf]
  · unfold consolidate_run
    by_cases hd : (defaultEntities.filterMap fun e2 =>
        load_entity_data (tables e2) flt e2).isEmpty
    · simp only [hd, if_true]
      rw [List.isEmpty_iff, List.filterMap_eq_nil_iff] at hd
      constructor
      · intro _ e2
        exact hd e2 (mem_defaultEntities e2)
      · intro _
        trivial
    · simp only [hd, if_false]
      constructor
      · intro h
        exact absurd h (by simp)
      · intro h
        exfalso
        apply hd
        rw [List.isEmpty_iff, List.filterMap_eq_nil_iff]
        intro e2 _
        exact h e2

/-- Witness for C8 at concrete inputs: a malformed table, a table emptied
by the allow-list, and a run in which every entity is missing. -/
theorem c8_witness :
    load_entity_data (some ⟨false, [⟨1, 1, (1, 1), "x"⟩]⟩) none .Apuntes = none
    ∧ load_entity_data (some ⟨true, [⟨1, 1, (1, 1), "x"⟩]⟩)
        (some {2}) .Apuntes = none
    ∧ consolidate_run (fun _ => none) none = none := by
  obtain ⟨h1, h2, h3, h4⟩ := c8_error_handling (fun _ => none) none .Apuntes
  exact ⟨h2 _ rfl, h3 _ _ rfl (by decide), h4.mpr fun _ => rfl⟩

end VetConsolidation

namespace VetConsolidation

/-! ## Claim C3 -/

/-- Identifier assignment preserves length. -/
lemma length_assignIds (i : Nat) (l : List CRec) :
    (assignIds i l).length = l.length := by
  induction l generalizing i with
  | nil => rfl
  | cons c t ih => simp [assignIds, ih]

/-- The sequencer preserves the number of records. -/
lemma length_sequenceRecords (l : List CRec) :
    (sequenceRecords l).length = l.length := by
  unfold sequenceRecords
  rw [length_assignIds, List.length_insertionSort]

/-- The identifiers assigned from `i` are `i, i+1, ...` in order. -/
lemma map_outputId_assignIds (i : Nat) (l : List CRec) :
    (assignIds i l).map SeqRec.outputId = List.range' i l.length := by
  induction l generalizing i with
  | nil => rfl
  | cons c t ih => simp [assignIds, List.range', ih]

/-- The Python batch count `(n - 1) // 5000 + 1` equals the ceiling
`(n + 4999) / 5000` (both are `0` at `n = 0`). -/
lemma totalBatches_eq (n : Nat) : totalBatches n = (n + 4999) / 5000 := by
  unfold totalBatches batchSizeN
  rw [Int.fdiv_eq_ediv _ (by norm_num)]
  omega

/-- Concatenating the `k` chunks of size `B` starting at offsets
`0, B, 2B, ...` recovers the list, provided `k * B` covers its length. -/
lemma flatten_chunks (B : Nat) :
    ∀ (k : Nat) (l : List SeqRec), l.length ≤ k * B →
      ((List.range k).map fun i => (l.drop (i * B)).take B).flatten = l := by
  intro k
  induction k with
  | zero =>
    intro l hl
    simp only [Nat.zero_mul, Nat.le_zero] at hl
    simp [List.length_eq_zero.mp hl]
  | succ k ih =>
    intro l hl
    rw [List.range_succ_eq_map]
    simp only [List.map_cons, List.map_map, List.flatten_cons, Nat.zero_mul,
      List.drop_zero]
    have hdrop : ∀ i : Nat,
        ((l.drop B).drop (i * B)).take B = (l.drop (Nat.succ i * B)).take B := by
      intro i
      rw [List.drop_drop, Nat.succ_mul, Nat.add_comm B (i * B)]
    have hrec : ((List.range k).map fun i =>
        ((l.drop B).drop (i * B)).take B).flatten = l.drop B := by
      apply ih
      rw [List.length_drop]
      rw [Nat.succ_mul] at hl
      omega
    calc l.take B ++ ((List.range k).map
          ((fun i => (l.drop (i * B)).take B) ∘ Nat.succ)).flatten
        = l.take B ++ ((List.range k).map fun i =>
            ((l.drop B).drop (i * B)).take B).flatten := by
          congr 1
          congr 1
          refine List.map_congr_left fun i _ => ?_
          simp only [Function.comp]
          rw [hdrop i]
      _ = l.take B ++ l.drop B := by rw [hrec]
      _ = l := List.take_append_drop B l

/-- C3: the batcher yields exactly `ceil(N / 5000)` batches; every batch
except possibly the last holds exactly 5000 records; concatenating the
batches in index order reproduces the sequenced list, whose `output_id`s
are exactly `1, ..., N` with no duplicate or gap. -/
theorem c3_batch_partition (crecs : List CRec) :
    (batches (sequenceRecords crecs)).length = (crecs.length + 4999) / 5000
    ∧ (∀ b ∈ (batches (sequenceRecords crecs)).dropLast, b.length = 5000)
    ∧ (batches (sequenceRecords crecs)).flatten = sequenceRecords crecs
    ∧ ((batches (sequenceRecords crecs)).flatten.map SeqRec.outputId) =
        List.range' 1 crecs.length := by
  have hN : (sequenceRecords crecs).length = crecs.length :=
    length_sequenceRecords crecs
  have hq := Nat.div_add_mod (crecs.length + 4999) 5000
  have hr : (crecs.length + 4999) % 5000 < 5000 := Nat.mod_lt _ (by omega)
  have htb : totalBatches (sequenceRecords crecs).length =
      (crecs.length + 4999) / 5000 := by
    rw [hN, totalBatches_eq]
  have hflat : (batches (sequenceRecords crecs)).flatten = sequenceRecords crecs := by
    unfold batches
    rw [htb]
    apply flatten_chunks
    rw [hN]
    unfold batchSizeN
    omega
  refine ⟨?_, ?_, hflat, ?_⟩
  · unfold batches
    rw [List.length_map, List.length_range, htb]
  · intro b hb
    unfold batches at hb
    rw [htb] at hb
    revert hb hq
    generalize (crecs.length + 4999) / 5000 = q
    intro hq hb
    cases q with
    | zero => simp at hb
    | succ m =>
      rw [List.range_succ] at hb
      simp only [List.map_append, List.map_cons, List.map_nil,
        List.dropLast_concat, List.mem_map] at hb
      obtain ⟨i, hi, rfl⟩ := hb
      rw [List.mem_range] at hi
      show (List.take batchSizeN _).length = 5000
      rw [List.length_take, List.length_drop, hN]
      unfold batchSizeN
      omega
  · rw [hflat]
    unfold sequenceRecords
    rw [map_outputId_assignIds, List.length_insertionSort]

end VetConsolidation

namespace VetConsolidation

/-! ## Claim C4 -/


/-- The sort order agrees both ways only on records with equal sort keys. -/
lemma keyTriple_eq_of_le_le {a b : CRec} (h1 : crecLe a b) (h2 : crecLe b a) :
    keyTriple a = keyTriple b := by
  unfold crecLe tripleLe at h1 h2
  rw [Prod.ext_iff, Prod.ext_iff]
  refine ⟨?_, ?_, ?_⟩ <;> omega

/-- Two sorted lists that are permutations of each other and have no
repeated sort key are equal: the sorted order of a consolidated set with
distinct `(timestamp, patient)` keys is unique, whatever sorting algorithm
produced it. -/
lemma sorted_perm_eq_of_nodup_keys :
    ∀ (l1 l2 : List CRec), l1.Perm l2 → l1.Sorted crecLe → l2.Sorted crecLe →
      (l1.map keyTriple).Nodup → l1 = l2 := by
  intro l1
  induction l1 with
  | nil =>
    intro l2 hp _ _ _
    exact (hp.nil_eq).symm ▸ rfl
  | cons a t1 ih =>
    intro l2 hp hs1 hs2 hnd
    cases l2 with
    | nil => exact absurd hp.symm.nil_eq (by simp)
    | cons b t2 =>
      by_cases hab : a = b
      · subst hab
        have hptail : t1.Perm t2 := hp.cons_inv
        have := ih t2 hptail hs1.of_cons hs2.of_cons
          (by
            rw [List.map_cons] at hnd
            exact hnd.of_cons)
        rw [this]
      · exfalso
        have ha2 : a ∈ b :: t2 := hp.mem_iff.mp (List.mem_cons_self a t1)
        have hb1 : b ∈ a :: t1 := hp.mem_iff.mpr (List.mem_cons_self b t2)
        have hat2 : a ∈ t2 := by
          cases ha2 with
          | head => exact absurd rfl hab
          | tail _ h => exact h
        have hbt1 : b ∈ t1 := by
          cases hb1 with
          | head => exact absurd rfl (fun h => hab h.symm)
          | tail _ h => exact h
        have hle1 : crecLe a b := List.rel_of_sorted_cons hs1 b hbt1
        have hle2 : crecLe b a := List.rel_of_sorted_cons hs2 a hat2
        have hkey : keyTriple a = keyTriple b := keyTriple_eq_of_le_le hle1 hle2
        have hnd2 : ((b :: t2).map keyTriple).Nodup :=
          ((hp.map keyTriple).nodup_iff).mp hnd
        rw [List.map_cons, List.nodup_cons] at hnd2
        exact hnd2.1 (hkey ▸ List.mem_map_of_mem keyTriple hat2)

/-- Dropping the assigned identifiers recovers the sorted input. -/
lemma map_seqToCRec_assignIds (i : Nat) (l : List CRec) :
    (assignIds i l).map seqToCRec = l := by
  induction l generalizing i with
  | nil => rfl
  | cons c t ih => simp [assignIds, seqToCRec, ih]

/-- C4: the sequencer sorts ascending by `(timestamp, patient_id)` and
assigns `output_id = 1, 2, 3, ...` in sorted order — dense, gapless,
starting at 1 — and, as long as the sort keys are pairwise distinct (as
they are for consolidated records, keyed by patient and day), the
assignment is deterministic: any reordering of the same consolidated set
yields the identical sequenced output. -/
theorem c4_sequencer (crecs crecs' : List CRec) (hperm : crecs.Perm crecs')
    (hnd : (crecs.map keyTriple).Nodup) :
    sequenceRecords crecs = sequenceRecords crecs'
    ∧ (sequenceRecords crecs).map SeqRec.outputId = List.range' 1 crecs.length
    ∧ List.Sorted crecLe ((sequenceRecords crecs).map seqToCRec) := by
  refine ⟨?_, ?_, ?_⟩
  · unfold sequenceRecords
    congr 1
    apply sorted_perm_eq_of_nodup_keys
    · exact ((List.perm_insertionSort crecLe crecs).trans hperm).trans
        (List.perm_insertionSort crecLe crecs').symm
    · exact List.sorted_insertionSort crecLe crecs
    · exact List.sorted_insertionSort crecLe crecs'
    · exact (((List.perm_insertionSort crecLe crecs).map keyTriple).nodup_iff).mpr hnd
  · unfold sequenceRecords
    rw [map_outputId_assignIds, List.length_insertionSort]
  · unfold sequenceRecords
    rw [map_seqToCRec_assignIds]
    exact List.sorted_insertionSort crecLe crecs

/-- Witness for C4: two orderings of the same two-record consolidated set
sequence identically. -/
theorem c4_witness :
    sequenceRecords [⟨1, (2, 0), "b"⟩, ⟨2, (1, 0), "a"⟩] =
      sequenceRecords [⟨2, (1, 0), "a"⟩, ⟨1, (2, 0), "b"⟩] :=
  (c4_sequencer _ _ (List.Perm.swap _ _ _) (by decide)).1

end VetConsolidation

namespace VetConsolidation

/-! ## Sanitizer invariants (claims C6 and C10) -/


lemma safeChar_space : SafeChar ' ' := by constructor <;> decide

/-- A whitelisted character is not in the control ranges. -/
lemma not_ctrl_of_allowed {c : Char} (h : isAllowed c = true) :
    isCtrl c = false := by
  simp only [isAllowed, decide_eq_true_eq] at h
  simp only [isCtrl, decide_eq_false_iff_not]
  omega

/-- A whitelisted character is not in the emoji ranges. -/
lemma not_emoji_of_allowed {c : Char} (h : isAllowed c = true) :
    isEmoji c = false := by
  simp only [isAllowed, decide_eq_true_eq] at h
  simp only [isEmoji, decide_eq_false_iff_not]
  omega

/-- A whitelisted character is not in the removed Unicode-space ranges. -/
lemma not_uniSpace_of_allowed {c : Char} (h : isAllowed c = true) :
    isUniSpace c = false := by
  simp only [isAllowed, decide_eq_true_eq] at h
  simp only [isUniSpace, decide_eq_false_iff_not]
  omega

/-- A whitelisted character is not an ASCII control character. -/
lemma not_asciiCtrl_of_allowed {c : Char} (h : isAllowed c = true) :
    isAsciiCtrl c = false := by
  simp only [isAllowed, decide_eq_true_eq] at h
  simp only [isAsciiCtrl, decide_eq_false_iff_not]
  omega

/-- Every character surviving the character phase is safe. -/
lemma safeChar_of_mem_charPhase {c : Char} {l : List Char}
    (h : c ∈ charPhase l) : SafeChar c := by
  unfold charPhase keepAllowed at h
  rw [List.mem_filter] at h
  obtain ⟨h2, hall⟩ := h
  unfold removeUniSpace at h2
  rw [List.mem_filter] at h2
  obtain ⟨h3, _⟩ := h2
  unfold removeXml at h3
  rw [List.mem_filter] at h3
  obtain ⟨_, hxml⟩ := h3
  refine ⟨hall, ?_⟩
  rwa [Bool.not_eq_eq_eq_not, Bool.not_true] at hxml

/-- The formula-prefix strip only removes characters. -/
lemma mem_of_mem_dropFormulaHead {c : Char} {l : List Char}
    (h : c ∈ dropFormulaHead l) : c ∈ l := by
  cases l with
  | nil => simp [dropFormulaHead] at h
  | cons a t =>
    simp only [dropFormulaHead] at h
    by_cases hf : isFormula a
    · rw [if_pos hf] at h
      exact List.mem_cons_of_mem a h
    · rwa [if_neg hf] at h

/-- Whitespace collapsing introduces no character other than a space. -/
lemma mem_collapseWs {c : Char} :
    ∀ {l : List Char}, c ∈ collapseWs l → c ∈ l ∨ c = ' ' := by
  intro l
  induction l with
  | nil => intro h; simp [collapseWs] at h
  | cons a rest ih =>
    cases rest with
    | nil =>
      intro h
      unfold collapseWs at h
      by_cases hs : isPySpace a
      · rw [if_pos hs] at h
        right
        simpa using h
      · rw [if_neg hs] at h
        left
        simpa using h
    | cons b rest2 =>
      intro h
      unfold collapseWs at h
      by_cases hs : isPySpace a && isPySpace b
      · rw [if_pos hs] at h
        rcases ih h with h1 | h1
        · exact Or.inl (List.mem_cons_of_mem a h1)
        · exact Or.inr h1
      · rw [if_neg hs] at h
        rcases List.mem_cons.mp h with h1 | h1
        · by_cases hsa : isPySpace a
          · rw [if_pos hsa] at h1
            exact Or.inr h1
          · rw [if_neg hsa] at h1
            exact Or.inl (h1 ▸ List.mem_cons_self a (b :: rest2))
        · rcases ih h1 with h2 | h2
          · exact Or.inl (List.mem_cons_of_mem a h2)
          · exact Or.inr h2

/-- Left stripping only removes characters. -/
lemma mem_of_mem_dropWhile {p : Char → Bool} {c : Char} :
    ∀ {l : List Char}, c ∈ l.dropWhile p → c ∈ l := by
  intro l
  induction l with
  | nil => intro h; simp at h
  | cons a t ih =>
    intro h
    rw [List.dropWhile_cons] at h
    by_cases hp : p a = true
    · rw [if_pos hp] at h
      exact List.mem_cons_of_mem a (ih h)
    · rwa [if_neg hp] at h

/-- Right stripping leaves an initial segment of the list. -/
lemma rdropWhile_append (p : Char → Bool) (l : List Char) :
    List.rdropWhile p l ++ (List.takeWhile p l.reverse).reverse = l := by
  unfold List.rdropWhile
  rw [← List.reverse_append, List.takeWhile_append_dropWhile,
    List.reverse_reverse]

/-- Right stripping only removes characters. -/
lemma mem_of_mem_rdropWhile {p : Char → Bool} {c : Char} {l : List Char}
    (h : c ∈ List.rdropWhile p l) : c ∈ l := by
  have := rdropWhile_append p l
  rw [← this]
  exact List.mem_append_left _ h

/-- Stripping only removes characters. -/
lemma mem_of_mem_stripEnds {c : Char} {l : List Char}
    (h : c ∈ stripEnds l) : c ∈ l := by
  unfold stripEnds at h
  exact mem_of_mem_dropWhile (mem_of_mem_rdropWhile h)

/-- Every character of the sanitized list is safe. -/
lemma safeChar_of_mem_cleanList {c : Char} {l : List Char}
    (h : c ∈ cleanList l) : SafeChar c := by
  unfold cleanList at h
  have h1 := mem_of_mem_stripEnds (List.take_subset _ _ h)
  rcases mem_collapseWs h1 with h2 | h2
  · exact safeChar_of_mem_charPhase (mem_of_mem_dropFormulaHead h2)
  · exact h2 ▸ safeChar_space

end VetConsolidation

namespace VetConsolidation

/-- If the collapsed form of `b :: rest` begins with a whitespace
character, then `b` itself is whitespace. -/
lemma collapseWs_head_space :
    ∀ (rest : List Char) (b c : Char),
      (collapseWs (b :: rest)).head? = some c → isPySpace c = true →
        isPySpace b = true := by
  intro rest
  induction rest with
  | nil =>
    intro b c hc hs
    unfold collapseWs at hc
    by_cases hb : isPySpace b
    · exact hb
    · rw [if_neg hb] at hc
      simp only [List.head?_cons, Option.some_inj] at hc
      exact absurd (hc ▸ hs) hb
  | cons b2 rest2 ih =>
    intro b c hc hs
    unfold collapseWs at hc
    by_cases hbb : isPySpace b && isPySpace b2
    · exact (Bool.and_eq_true_iff.mp hbb).1
    · rw [if_neg hbb] at hc
      simp only [List.head?_cons, Option.some_inj] at hc
      by_cases hb : isPySpace b
      · exact hb
      · rw [if_neg hb] at hc
        exact absurd (hc ▸ hs) hb

/-- The output of whitespace collapsing is in collapsed form. -/
lemma collapsed_collapseWs : ∀ l : List Char, Collapsed (collapseWs l) := by
  intro l
  induction l with
  | nil => exact ⟨by simp [collapseWs], by simp [collapseWs]⟩
  | cons a rest ih =>
    cases rest with
    | nil =>
      constructor
      · intro c hc hs
        unfold collapseWs at hc
        by_cases ha : isPySpace a
        · rw [if_pos ha] at hc
          simpa using hc
        · rw [if_neg ha] at hc
          simp only [List.mem_singleton] at hc
          exact absurd (hc ▸ hs) ha
      · unfold collapseWs
        by_cases ha : isPySpace a <;> simp [ha]
    | cons b rest2 =>
      obtain ⟨ihm, ihc⟩ := ih
      unfold collapseWs
      by_cases hab : isPySpace a && isPySpace b
      · rw [if_pos hab]
        exact ⟨ihm, ihc⟩
      · rw [if_neg hab]
        constructor
        · intro c hc hs
          rcases List.mem_cons.mp hc with h1 | h1
          · by_cases ha : isPySpace a
            · rw [if_pos ha] at h1
              exact h1
            · rw [if_neg ha] at h1
              exact absurd (h1 ▸ hs) ha
          · exact ihm c h1 hs
        · rw [List.chain'_cons']
          refine ⟨?_, ihc⟩
          intro y hy
          intro hcon
          obtain ⟨hy1, hy2⟩ := hcon
          have hb : isPySpace b = true :=
            collapseWs_head_space rest2 b y (by simpa using hy) hy2
          have ha : isPySpace a = true := by
            by_cases ha : isPySpace a
            · exact ha
            · rw [if_neg ha] at hy1
              exact absurd hy1 ha
          exact hab (by rw [ha, hb]; rfl)

/-- Whitespace collapsing is the identity on lists already in collapsed
form. -/
lemma collapseWs_eq_self : ∀ {l : List Char}, Collapsed l → collapseWs l = l := by
  intro l
  induction l with
  | nil => intro _; rfl
  | cons a rest ih =>
    intro hcol
    obtain ⟨hm, hc⟩ := hcol
    cases rest with
    | nil =>
      unfold collapseWs
      by_cases ha : isPySpace a
      · rw [if_pos ha, hm a (List.mem_singleton_self a) ha]
      · rw [if_neg ha]
    | cons b rest2 =>
      unfold collapseWs
      rw [List.chain'_cons'] at hc
      obtain ⟨hhead, htail⟩ := hc
      have hnot : ¬(isPySpace a = true ∧ isPySpace b = true) :=
        hhead b (by simp)
      have hab : ¬(isPySpace a && isPySpace b) = true := by
        intro h
        exact hnot (Bool.and_eq_true_iff.mp h)
      rw [if_neg hab]
      have htailcol : Collapsed (b :: rest2) :=
        ⟨fun c hc2 hs => hm c (List.mem_cons_of_mem a hc2) hs, htail⟩
      rw [ih htailcol]
      by_cases ha : isPySpace a
      · rw [if_pos ha, hm a (List.mem_cons_self a _) ha]
      · rw [if_neg ha]

/-- Collapsed form survives a leading `dropWhile`. -/
lemma collapsed_dropWhile {l : List Char} (h : Collapsed l) :
    Collapsed (l.dropWhile isPySpace) := by
  refine ⟨fun c hc hs => h.1 c (mem_of_mem_dropWhile hc) hs, ?_⟩
  have hsuf : l.dropWhile isPySpace <:+ l :=
    ⟨l.takeWhile isPySpace, List.takeWhile_append_dropWhile _ _⟩
  exact List.Chain'.suffix h.2 hsuf

/-- Collapsed form survives a trailing `rdropWhile`. -/
lemma collapsed_rdropWhile {l : List Char} (h : Collapsed l) :
    Collapsed (List.rdropWhile isPySpace l) := by
  refine ⟨fun c hc hs => h.1 c (mem_of_mem_rdropWhile hc) hs, ?_⟩
  have hpre : List.rdropWhile isPySpace l <+: l :=
    ⟨(List.takeWhile isPySpace l.reverse).reverse, rdropWhile_append _ _⟩
  exact List.Chain'.prefix h.2 hpre

/-- Collapsed form survives stripping and truncation. -/
lemma collapsed_stripEnds_take {l : List Char} (h : Collapsed l) (n : Nat) :
    Collapsed ((stripEnds l).take n) := by
  have h1 : Collapsed (stripEnds l) := collapsed_rdropWhile (collapsed_dropWhile h)
  exact ⟨fun c hc hs => h1.1 c (List.take_subset _ _ hc) hs, List.Chain'.take h1.2 n⟩

/-- The sanitized list is in collapsed form. -/
lemma collapsed_cleanList (l : List Char) : Collapsed (cleanList l) := by
  unfold cleanList
  exact collapsed_stripEnds_take (collapsed_collapseWs _) _

end VetConsolidation

namespace VetConsolidation

/-- The head surviving `dropWhile p` does not satisfy `p`. -/
lemma head_dropWhile_not {p : Char → Bool} :
    ∀ {l : List Char} {c : Char}, (l.dropWhile p).head? = some c → p c = false := by
  intro l
  induction l with
  | nil => intro c h; simp at h
  | cons a t ih =>
    intro c h
    rw [List.dropWhile_cons] at h
    by_cases hp : p a = true
    · rw [if_pos hp] at h
      exact ih h
    · rw [if_neg hp] at h
      simp only [List.head?_cons, Option.some_inj] at h
      subst h
      exact eq_false_of_ne_true hp

/-- Right stripping does not change the head of the list. -/
lemma head_rdropWhile {p : Char → Bool} {l : List Char} {c : Char}
    (h : (List.rdropWhile p l).head? = some c) : l.head? = some c := by
  have happ := rdropWhile_append p l
  cases hR : List.rdropWhile p l with
  | nil => rw [hR] at h; simp at h
  | cons x R2 =>
    rw [hR] at h
    simp only [List.head?_cons, Option.some_inj] at h
    rw [← happ, hR, ← h]
    simp

/-- The sanitized list never begins with whitespace. -/
lemma head_cleanList_not_space {l : List Char} {c : Char}
    (h : (cleanList l).head? = some c) : isPySpace c = false := by
  unfold cleanList stripEnds at h
  rw [List.head?_take, if_neg (by decide : ¬(excelLimit = 0))] at h
  exact head_dropWhile_not (head_rdropWhile h)

/-- The sanitized list respects the Excel length limit. -/
lemma length_cleanList_le (l : List Char) : (cleanList l).length ≤ excelLimit := by
  unfold cleanList
  exact List.length_take_le _ _

/-- The sanitizer pipeline is the identity on a character list that is
already fully sanitized: all characters safe, whitespace collapsed, no
leading formula character, no leading or trailing whitespace, within the
length limit. -/
lemma cleanList_eq_self {L : List Char}
    (hsafe : ∀ c ∈ L, SafeChar c)
    (hcol : Collapsed L)
    (hheadf : ∀ c, L.head? = some c → isFormula c = false)
    (hhead : ∀ c, L.head? = some c → isPySpace c = false)
    (hlast : ∀ c, L.getLast? = some c → isPySpace c = false)
    (hlen : L.length ≤ excelLimit) :
    cleanList L = L := by
  have hctrl : ctrlToSpace L = L := by
    unfold ctrlToSpace
    have : ∀ c ∈ L, (if isCtrl c then ' ' else c) = id c := by
      intro c hc
      rw [not_ctrl_of_allowed (hsafe c hc).1]
      rfl
    rw [List.map_congr_left this, List.map_id]
  have hemoji : removeEmoji L = L := by
    unfold removeEmoji
    rw [List.filter_eq_self]
    intro c hc
    rw [not_emoji_of_allowed (hsafe c hc).1]
    rfl
  have hxml : removeXml L = L := by
    unfold removeXml
    rw [List.filter_eq_self]
    intro c hc
    rw [(hsafe c hc).2]
    rfl
  have huni : removeUniSpace L = L := by
    unfold removeUniSpace
    rw [List.filter_eq_self]
    intro c hc
    rw [not_uniSpace_of_allowed (hsafe c hc).1]
    rfl
  have hallow : keepAllowed L = L := by
    unfold keepAllowed
    rw [List.filter_eq_self]
    intro c hc
    exact (hsafe c hc).1
  have hphase : charPhase L = L := by
    unfold charPhase
    rw [hctrl, hemoji, hxml, huni, hallow]
  have hformula : dropFormulaHead L = L := by
    cases L with
    | nil => rfl
    | cons a t =>
      simp only [dropFormulaHead]
      rw [hheadf a rfl]
      simp
  have hcollapse : collapseWs L = L := collapseWs_eq_self hcol
  have hstrip : stripEnds L = L := by
    unfold stripEnds
    have hdw : L.dropWhile isPySpace = L := by
      cases L with
      | nil => rfl
      | cons a t =>
        rw [List.dropWhile_cons, if_neg]
        rw [hhead a rfl]
        simp
    rw [hdw, List.rdropWhile_eq_self_iff]
    intro hl
    rw [hlast (L.getLast hl) (List.getLast?_eq_getLast L hl)]
    simp
  unfold cleanList
  rw [hphase, hformula, hcollapse, hstrip]
  exact List.take_of_length_le hlen

end VetConsolidation

namespace VetConsolidation

/-! ## Claim C6 -/

/-- C6 as stated is false: `^[=+\-@]` strips only one leading formula
character per run, so sanitizing a string that begins with two equals signs
is not idempotent. -/
theorem c6_counterexample :
    clean_text_for_excel (clean_text_for_excel "==a") ≠
      clean_text_for_excel "==a" := by decide

/-- C6 (amended): the sanitizer is idempotent on every string whose
sanitized form neither still begins with a formula character (`=`, `+`,
`-`, `@` — possible when the input began with several of them) nor ends
with a space (possible only when the 32767-character truncation cut
directly after one). -/
theorem c6_sanitizer_idempotent (x : String)
    (h1 : startsWithFormula (clean_text_for_excel x) = false)
    (h2 : endsWithSpace (clean_text_for_excel x) = false) :
    clean_text_for_excel (clean_text_for_excel x) = clean_text_for_excel x := by
  by_cases hx : x = ""
  · subst hx
    rfl
  · have hdata : (clean_text_for_excel x).data = cleanList x.data := by
      unfold clean_text_for_excel
      rw [if_neg hx]
    obtain ⟨y, hy⟩ : ∃ y, clean_text_for_excel x = y := ⟨_, rfl⟩
    rw [hy] at hdata h1 h2 ⊢
    by_cases hy0 : y = ""
    · rw [hy0]
      rfl
    · have hcore : cleanList y.data = y.data := by
        apply cleanList_eq_self
        · intro c hc
          rw [hdata] at hc
          exact safeChar_of_mem_cleanList hc
        · rw [hdata]
          exact collapsed_cleanList x.data
        · intro c hc
          unfold startsWithFormula at h1
          rw [hc] at h1
          exact h1
        · intro c hc
          rw [hdata] at hc
          exact head_cleanList_not_space hc
        · intro c hc
          unfold endsWithSpace at h2
          rw [hc] at h2
          exact h2
        · rw [hdata]
          exact length_cleanList_le x.data
      unfold clean_text_for_excel
      rw [if_neg hy0]
      exact String.ext hcore

/-- Witness for C6 (amended) at a concrete already-stable string. -/
theorem c6_witness :
    clean_text_for_excel (clean_text_for_excel "hola mundo") =
      clean_text_for_excel "hola mundo" :=
  c6_sanitizer_idempotent "hola mundo" (by decide) (by decide)

end VetConsolidation

namespace VetConsolidation

/-! ## Claim C10 -/

/-- C10 as stated is false: a tab is outside the whitelist yet is replaced
by a space rather than silently deleted (deletion would have produced
`"ab"`). -/
theorem c10_counterexample :
    clean_text_for_excel "a\tb" = "a b" ∧
      clean_text_for_excel "a\tb" ≠ "ab" := by decide

/-- The character phase distributes over concatenation. -/
lemma charPhase_append (l1 l2 : List Char) :
    charPhase (l1 ++ l2) = charPhase l1 ++ charPhase l2 := by
  unfold charPhase ctrlToSpace removeEmoji removeXml removeUniSpace keepAllowed
  rw [List.map_append, List.filter_append, List.filter_append,
    List.filter_append, List.filter_append]

/-- A non-whitelisted, non-control character is deleted by the character
phase: the surrounding text is unaffected. -/
lemma charPhase_deletes {c : Char} (h1 : isAllowed c = false)
    (h2 : isCtrl c = false) (l1 l2 : List Char) :
    charPhase (l1 ++ c :: l2) = charPhase (l1 ++ l2) := by
  have hsingle : charPhase (c :: l2) = charPhase l2 := by
    by_cases he : isEmoji c <;> by_cases hx : isXmlBad c <;>
      by_cases hu : isUniSpace c <;>
      simp [charPhase, ctrlToSpace, removeEmoji, removeXml, removeUniSpace,
        keepAllowed, h1, h2, he, hx, hu]
  rw [charPhase_append, hsingle, ← charPhase_append]

/-- A control character is replaced by a space by the character phase. -/
lemma charPhase_replaces_ctrl {c : Char} (h : isCtrl c = true)
    (l1 l2 : List Char) :
    charPhase (l1 ++ c :: l2) = charPhase l1 ++ ' ' :: charPhase l2 := by
  have hsingle : charPhase (c :: l2) = ' ' :: charPhase l2 := by
    simp [charPhase, ctrlToSpace, removeEmoji, removeXml, removeUniSpace,
      keepAllowed, h, show isEmoji ' ' = false from rfl,
      show isXmlBad ' ' = false from rfl,
      show isUniSpace ' ' = false from rfl,
      show isAllowed ' ' = true from rfl]
  rw [charPhase_append, hsingle]

/-- C10 (amended): every character of the sanitizer's output on a
non-empty input lies in the whitelist (printable ASCII, Latin-1 supplement
letters, Latin Extended-A), and the output never contains an
XML-problematic character (`<`, `>`, `&`, quotes) or an ASCII control
character; a character outside the whitelist that is not in the control
ranges U+0000-U+001F / U+007F-U+009F — including all Cyrillic, Greek and
CJK text — is silently deleted, while control-range characters are
replaced by a space. -/
theorem c10_output_charset :
    (∀ s : String, s ≠ "" → ∀ c ∈ (clean_text_for_excel s).data,
        isAllowed c = true ∧ isXmlBad c = false ∧ isAsciiCtrl c = false)
    ∧ (∀ c : Char, isAllowed c = false → isCtrl c = false →
        ∀ l1 l2 : List Char, charPhase (l1 ++ c :: l2) = charPhase (l1 ++ l2))
    ∧ (∀ c : Char, isCtrl c = true →
        ∀ l1 l2 : List Char,
          charPhase (l1 ++ c :: l2) = charPhase l1 ++ ' ' :: charPhase l2) := by
  refine ⟨?_, fun c h1 h2 => charPhase_deletes h1 h2,
    fun c h => charPhase_replaces_ctrl h⟩
  intro s hs c hc
  have hdata : (clean_text_for_excel s).data = cleanList s.data := by
    unfold clean_text_for_excel
    rw [if_neg hs]
  rw [hdata] at hc
  obtain ⟨hall, hxml⟩ := safeChar_of_mem_cleanList hc
  exact ⟨hall, hxml, not_asciiCtrl_of_allowed hall⟩

/-- Witness for C10 at concrete inputs: the sanitized text of a string
with a Cyrillic letter and a zero-width space, the deletion of a Cyrillic
letter (U+043F), and the space-replacement of a tab. -/
theorem c10_witness :
    (isAllowed 'h' = true ∧ isXmlBad 'h' = false ∧ isAsciiCtrl 'h' = false)
    ∧ charPhase (['a'] ++ Char.ofNat 0x43F :: ['b']) = charPhase (['a'] ++ ['b'])
    ∧ charPhase (['a'] ++ '\t' :: ['b']) = charPhase ['a'] ++ ' ' :: charPhase ['b'] :=
  ⟨c10_output_charset.1 "hi" (by decide) 'h' (by decide),
   c10_output_charset.2.1 (Char.ofNat 0x43F) (by decide) (by decide) ['a'] ['b'],
   c10_output_charset.2.2 '\t' (by decide) ['a'] ['b']⟩

end VetConsolidation

namespace VetConsolidation

/-- A consolidated record carries the patient id and day of its group
key. -/
lemma consolidateGroup_key {l : List Rec} {k : Nat × Nat} {c : CRec}
    (h : consolidateGroup k.1 (groupMembers l k) = some c) :
    c.pid = k.1 ∧ c.ts.1 = k.2 := by
  unfold consolidateGroup at h
  cases hh : (groupMembers l k).head? with
  | none => rw [hh] at h; exact absurd h (by simp)
  | some first =>
    rw [hh] at h
    dsimp only at h
    by_cases hn : (renderNotes (groupMembers l k)).isEmpty
    · rw [if_pos hn] at h
      exact absurd h (by simp)
    · rw [if_neg hn] at h
      have hfm : first ∈ groupMembers l k := by
        cases hgm : groupMembers l k with
        | nil => rw [hgm] at hh; simp at hh
        | cons a t =>
          rw [hgm] at hh
          simp only [List.head?_cons, Option.some_inj] at hh
          rw [hh]
          exact List.mem_cons_self first t
      have hkey : recKey first = k := by
        unfold groupMembers at hfm
        have := List.mem_filter.mp hfm
        simpa using this.2
      simp only [Option.some_inj] at h
      rw [← h]
      unfold recKey at hkey
      constructor
      · rfl
      · show first.ts.1 = k.2
        exact congrArg Prod.snd hkey

/-- Projecting a `filterMap` back to pairwise-distinct source keys keeps
the projections pairwise distinct. -/
lemma nodup_map_filterMap {β γ δ : Type} (proj : γ → δ) (back : δ → β)
    (g : β → Option γ)
    (hg : ∀ k c, g k = some c → back (proj c) = k) :
    ∀ ks : List β, ks.Nodup → ((ks.filterMap g).map proj).Nodup := by
  intro ks
  induction ks with
  | nil => intro _; simp
  | cons k t ih =>
    intro hnd
    rw [List.filterMap_cons]
    cases hk : g k with
    | none => exact ih hnd.of_cons
    | some c =>
      rw [List.map_cons, List.nodup_cons]
      refine ⟨?_, ih hnd.of_cons⟩
      intro hmem
      obtain ⟨c2, hc2, hpr⟩ := List.mem_map.mp hmem
      obtain ⟨k2, hk2, hgk2⟩ := List.mem_filterMap.mp hc2
      have h1 : back (proj c) = k := hg k c hk
      have h2 : back (proj c2) = k2 := hg k2 c2 hgk2
      rw [hpr] at h2
      rw [h1] at h2
      rw [List.nodup_cons] at hnd
      exact hnd.1 (h2 ▸ hk2)

/-- The consolidator never produces two records with the same
`(timestamp, patient)` sort key: the distinct-keys hypothesis of the
sequencing determinism theorem holds for every pipeline input. -/
lemma consolidate_keys_nodup (l : List Rec) :
    ((consolidate l).map keyTriple).Nodup := by
  unfold consolidate
  have hnd : (groupKeysSorted l).Nodup := by
    unfold groupKeysSorted
    exact ((List.perm_insertionSort pairLe _).nodup_iff).mpr
      (List.nodup_dedup _)
  have hkey : ∀ (k : Nat × Nat) (c : CRec),
      consolidateGroup k.1 (groupMembers l k) = some c →
        (fun d : Nat × Nat × Nat => (d.2.2, d.1)) (keyTriple c) = k := by
    intro k c h
    obtain ⟨h1, h2⟩ := consolidateGroup_key h
    unfold keyTriple
    simp only
    rw [h1, h2]
  exact nodup_map_filterMap keyTriple (fun d => (d.2.2, d.1)) _ hkey
    (groupKeysSorted l) hnd

end VetConsolidation
